import Mathlib

/-!
# Verification of the markvoid line-editor core

Shallow embedding of the selection / edit / history core of `src/app.js`:

* `Ksel` / `kselNormalized`            — keyboard cross-line selection and its
  normalization (app.js 846-855);
* `deleteKsel`                          — range delete / replace driven by the
  keyboard selection (app.js 940-973);
* `getKselAsCross`                      — keyboard selection exported as a
  cross-line range (app.js 976-981);
* `getCrossLineSelection`               — the decision logic of the pointer
  cross-line extraction (app.js 2069-2120);
* `offsetInLineProj`                    — the proportional projection used by
  pointer offset recovery (app.js 2080-2109);
* `deleteSelection`                     — cross-line range delete
  (app.js 2123-2148);
* `kselArrowUpShift` / `kselArrowDownShift` — the Shift+ArrowUp / Shift+ArrowDown
  branches of `handleLineKeydown` (app.js 527-581);
* `pushUndoFire`, `HistState.undo`, `HistState.redo` — the history manager
  (app.js 1146-1155, 1265-1283).

JavaScript strings are Lean `String`s, `lines[i] || ''` is `List.getD i ""`,
`Array.prototype.splice` is `jsSplice`, and `Math.round` is `jsRound` on `ℚ`.
-/

/-- `lines[i] || ''` : fetch line `i`, empty string when out of range. -/
def getLine (lines : List String) (i : Nat) : String :=
  lines.getD i ""

/-- `arr.splice(start, deleteCount, ...items)` for `0 ≤ start`:
the JS clamping of `start` and `deleteCount` to the array bounds coincides
with the truncating behaviour of `List.take` / `List.drop`. -/
def jsSplice (l : List String) (start deleteCount : Nat) (items : List String) :
    List String :=
  l.take start ++ items ++ l.drop (start + deleteCount)

/-- `Math.round` : round half toward positive infinity. -/
def jsRound (q : ℚ) : ℤ :=
  Int.floor (q + 1/2)

/-- `ksel = { anchorLine, anchorOffset, focusLine, focusOffset }`
(app.js: the keyboard cross-line selection state). -/
structure Ksel where
  anchorLine : Nat
  anchorOffset : Nat
  focusLine : Nat
  focusOffset : Nat
deriving DecidableEq, Repr

/-- A normalized cross-line range `{startLine, startOffset, endLine, endOffset}`. -/
structure CrossSel where
  startLine : Nat
  startOffset : Nat
  endLine : Nat
  endOffset : Nat
deriving DecidableEq, Repr

/-- `kselNormalized` (app.js 846-855): order anchor and focus so that start
comes first in document order.  The source returns `null` when `ksel` is
`null`; that case is handled by mapping over `Option` at the call sites. -/
def kselNormalized (k : Ksel) : CrossSel :=
  if k.anchorLine < k.focusLine ∨
      (k.anchorLine = k.focusLine ∧ k.anchorOffset ≤ k.focusOffset) then
    { startLine := k.anchorLine, startOffset := k.anchorOffset,
      endLine := k.focusLine, endOffset := k.focusOffset }
  else
    { startLine := k.focusLine, startOffset := k.focusOffset,
      endLine := k.anchorLine, endOffset := k.anchorOffset }

/-- `deleteKsel(insert)` (app.js 940-973), its pure effect on `lines`:
delete the normalized keyboard range, optionally inserting a replacement
string (`insert === '\n'` instead yields the two lines `before`, `after`).
`insert = none` models the argument being `undefined`. -/
def deleteKsel (lines : List String) (ksel : Option Ksel) (insert : Option String) :
    List String :=
  match ksel with
  | none => lines
  | some k =>
    let norm := kselNormalized k
    let before := (getLine lines norm.startLine).take norm.startOffset
    let after := (getLine lines norm.endLine).drop norm.endOffset
    let newLines :=
      if insert = some "\n" then [before, after]
      else [before ++ insert.getD "" ++ after]
    let ls := jsSplice lines norm.startLine (norm.endLine - norm.startLine + 1) newLines
    if ls = [] then [""] else ls

/-- `getKselAsCross` (app.js 976-981): the keyboard selection as a
cross-line range, `null` unless it spans two distinct lines. -/
def getKselAsCross (ksel : Option Ksel) : Option CrossSel :=
  match ksel with
  | none => none
  | some k =>
    let norm := kselNormalized k
    if norm.startLine = norm.endLine then none else some norm

/-- The line-indexing and cross-line checks of `getCrossLineSelection`
(app.js 2069-2120).  `lineIdxOf` returning `-1` (no enclosing
`.editor-line` element) is modelled as `none`; the DOM-derived offsets are
taken as parameters. -/
def getCrossLineSelection (startLine endLine : Option Nat)
    (startOffset endOffset : Nat) : Option CrossSel :=
  match startLine, endLine with
  | some sl, some el =>
    if sl = el then none
    else some { startLine := sl, startOffset := startOffset,
                endLine := el, endOffset := endOffset }
  | _, _ => none

/-- The arithmetic of `offsetInLine` (app.js 2080-2109): map a rendered
character position back to a raw offset by the proportional projection
`Math.round((charPos / fullText.length) * rawLine.length)`, returning `0`
when the rendered text is empty. -/
def offsetInLineProj (charPos renderedLen rawLen : Nat) : ℤ :=
  if renderedLen = 0 then 0
  else jsRound ((charPos : ℚ) / (renderedLen : ℚ) * (rawLen : ℚ))

/-- `deleteSelection(crossSel)` (app.js 2123-2148), its pure effect:
returns the source's boolean result together with the new `lines`. -/
def deleteSelection (lines : List String) (crossSel : Option CrossSel) :
    Bool × List String :=
  match crossSel with
  | none => (false, lines)
  | some s =>
    if s.startLine = s.endLine then (false, lines)
    else
      let before := (getLine lines s.startLine).take s.startOffset
      let after := (getLine lines s.endLine).drop s.endOffset
      let merged := before ++ after
      let ls := jsSplice lines s.startLine (s.endLine - s.startLine + 1) [merged]
      (true, if ls = [] then [""] else ls)

/-- The Shift+ArrowUp branch of `handleLineKeydown` (app.js 527-551):
only acts when `idx > 0`; starts a selection anchored at the cursor when
none exists, then moves the focus one line up (clamped at `0`) and sets the
focus offset to the end of the new focus line. -/
def kselArrowUpShift (lines : List String) (idx cursorOff : Nat)
    (ks : Option Ksel) : Option Ksel :=
  if 0 < idx then
    let k := ks.getD
      { anchorLine := idx, anchorOffset := cursorOff,
        focusLine := idx, focusOffset := cursorOff }
    let fl := max 0 (k.focusLine - 1)
    some { k with focusLine := fl, focusOffset := (getLine lines fl).length }
  else ks

/-- The Shift+ArrowDown branch of `handleLineKeydown` (app.js 554-581):
when not on the last line, moves the focus one line down (clamped at
`lines.length - 1`) with focus offset `0`; on the last line, extends the
focus offset to the end of the current line. -/
def kselArrowDownShift (lines : List String) (idx cursorOff : Nat)
    (ks : Option Ksel) : Option Ksel :=
  if idx < lines.length - 1 then
    let k := ks.getD
      { anchorLine := idx, anchorOffset := cursorOff,
        focusLine := idx, focusOffset := cursorOff }
    let fl := min (lines.length - 1) (k.focusLine + 1)
    some { k with focusLine := fl, focusOffset := 0 }
  else
    let k := ks.getD
      { anchorLine := idx, anchorOffset := cursorOff,
        focusLine := idx, focusOffset := cursorOff }
    some { k with focusOffset := (getLine lines idx).length }

/-- Both lines of a keyboard selection index existing lines. -/
def kselInBounds (lines : List String) (k : Ksel) : Prop :=
  k.anchorLine < lines.length ∧ k.focusLine < lines.length

/-- History-manager state: the document lines plus the two snapshot stacks.
Stacks grow at the end of the list (`push` appends, `pop` takes the last
element, `shift` drops the head), matching the JS arrays. -/
structure HistState where
  lines : List String
  undoStack : List (List String)
  redoStack : List (List String)
deriving DecidableEq, Repr

/-- The body of the debounced `pushUndo` timer (app.js 1146-1155): when
the snapshot equals the top of the undo stack the callback returns early;
otherwise it pushes the snapshot, evicts the oldest entry past depth 200,
and clears the redo stack. -/
def pushUndoFire (st : HistState) : HistState :=
  let snapshot := st.lines
  if st.undoStack ≠ [] ∧ st.undoStack.getLastD [] = snapshot then st
  else
    let u := st.undoStack ++ [snapshot]
    let u := if 200 < u.length then u.tail else u
    { st with undoStack := u, redoStack := [] }

/-- `app.undo()` (app.js 1265-1273): no-op on an empty undo stack, else
push the current lines to the redo stack and restore the popped entry. -/
def HistState.undo (st : HistState) : HistState :=
  if st.undoStack = [] then st
  else
    { lines := st.undoStack.getLastD [],
      undoStack := st.undoStack.dropLast,
      redoStack := st.redoStack ++ [st.lines] }

/-- `app.redo()` (app.js 1275-1283): symmetric to `undo`. -/
def HistState.redo (st : HistState) : HistState :=
  if st.redoStack = [] then st
  else
    { lines := st.redoStack.getLastD [],
      undoStack := st.undoStack ++ [st.lines],
      redoStack := st.redoStack.dropLast }

/-- The operations that touch the history state: a plain edit of the lines
(which never touches the stacks directly), a firing of the debounced
commit, an undo, and a redo. -/
inductive HistOp where
  | edit (newLines : List String)
  | commit
  | undoOp
  | redoOp
deriving DecidableEq, Repr

/-- Apply one history operation. -/
def applyHistOp (st : HistState) : HistOp → HistState
  | HistOp.edit newLines => { st with lines := newLines }
  | HistOp.commit => pushUndoFire st
  | HistOp.undoOp => st.undo
  | HistOp.redoOp => st.redo

/-- Run a sequence of history operations. -/
def runHistOps (st : HistState) (ops : List HistOp) : HistState :=
  ops.foldl applyHistOp st

/-! ## Helper lemmas -/

/-- `s.slice(0, 0)` is empty. -/
theorem string_take_zero (s : String) : s.take 0 = "" := by
  cases s
  rw [String.take_eq]
  rfl

/-- `s.slice(s.length)` is empty. -/
theorem string_drop_length (s : String) : s.drop s.length = "" := by
  cases s with
  | mk d =>
    rw [String.drop_eq]
    show String.mk (d.drop d.length) = ""
    rw [List.drop_length]

/-! ## Claims -/

/-- C1: range delete on a normalized cross-line selection replaces all lines in
`[startLine, endLine]` by the single line `before ++ after`, where `before` is
the start line truncated to `startOffset` and `after` is the end line's suffix
from `endOffset`; in particular on lines `["abc","def","ghi"]` with the
selection from (line 0, offset 1) to (line 2, offset 2), the resulting line
sequence is `["ai"]`. -/
theorem deleteSelection_range_delete (lines : List String) (s : CrossSel)
    (h : s.startLine < s.endLine) :
    deleteSelection lines (some s) =
      (true,
        lines.take s.startLine ++
          [(getLine lines s.startLine).take s.startOffset ++
            (getLine lines s.endLine).drop s.endOffset] ++
          lines.drop (s.endLine + 1)) ∧
    deleteSelection ["abc", "def", "ghi"]
        (some { startLine := 0, startOffset := 1, endLine := 2, endOffset := 2 })
      = (true, ["ai"]) := by
  refine ⟨?_, by decide⟩
  have hne : s.startLine ≠ s.endLine := Nat.ne_of_lt h
  simp only [deleteSelection, if_neg hne, jsSplice]
  have hidx : s.startLine + (s.endLine - s.startLine + 1) = s.endLine + 1 := by omega
  rw [hidx, if_neg (by simp)]

/-- The result of the non-emptiness guard `if (!lines.length) lines = ['']`
always has at least one line. -/
theorem length_pos_emptyGuard (l : List String) :
    1 ≤ (if l = [] then [""] else l).length := by
  split
  · simp
  · rename_i hne
    exact List.length_pos.mpr hne

/-- C2: the document's line sequence is never empty: any range delete via the
keyboard selection or the pointer cross-line selection leaves at least one
line, and deleting everything (the full-document keyboard range with no
replacement) leaves exactly one empty line. -/
theorem delete_document_nonempty (lines : List String) (ks : Option Ksel)
    (ins : Option String) (cs : Option CrossSel) (h : lines ≠ []) :
    1 ≤ (deleteKsel lines ks ins).length ∧
    1 ≤ (deleteSelection lines cs).2.length ∧
    deleteKsel lines
        (some { anchorLine := 0, anchorOffset := 0,
                focusLine := lines.length - 1,
                focusOffset := (getLine lines (lines.length - 1)).length })
        none
      = [""] := by
  have hL : 1 ≤ lines.length := List.length_pos.mpr h
  refine ⟨?_, ?_, ?_⟩
  · match ks with
    | none => simpa [deleteKsel] using hL
    | some k =>
      simp only [deleteKsel]
      exact length_pos_emptyGuard _
  · match cs with
    | none => simpa [deleteSelection] using hL
    | some s =>
      simp only [deleteSelection]
      split
      · simpa using hL
      · exact length_pos_emptyGuard _
  · simp only [deleteKsel, kselNormalized]
    have hcond : 0 < lines.length - 1 ∨
        (0 = lines.length - 1 ∧
          0 ≤ (getLine lines (lines.length - 1)).length) := by
      omega
    rw [if_pos hcond]
    simp only [string_take_zero, string_drop_length, jsSplice]
    have hidx : 0 + (lines.length - 1 - 0 + 1) = lines.length := by omega
    rw [hidx]
    simp [List.drop_length]

/-- C3: for every `KeyboardCross` selection with arbitrary anchor/focus, the
normalized range satisfies `(startLine, startOffset) <= (endLine, endOffset)`
in lexicographic order. -/
theorem kselNormalized_lex_le (k : Ksel) :
    (kselNormalized k).startLine < (kselNormalized k).endLine ∨
    ((kselNormalized k).startLine = (kselNormalized k).endLine ∧
      (kselNormalized k).startOffset ≤ (kselNormalized k).endOffset) := by
  unfold kselNormalized
  split
  · rename_i hc
    simpa using hc
  · rename_i hc
    simp only [not_or, not_and, not_le] at hc
    simp only
    omega

/-- Witness for C1 at the spec's concrete example. -/
theorem deleteSelection_range_delete_witness :
    deleteSelection ["abc", "def", "ghi"]
        (some { startLine := 0, startOffset := 1, endLine := 2, endOffset := 2 })
      = (true, ["ai"]) :=
  (deleteSelection_range_delete ["abc", "def", "ghi"]
    { startLine := 0, startOffset := 1, endLine := 2, endOffset := 2 }
    (by decide)).2

/-- Witness for C2 on a concrete two-line document. -/
theorem delete_document_nonempty_witness :
    1 ≤ (deleteKsel ["abc", "def"] none none).length ∧
    deleteKsel ["abc", "def"]
        (some { anchorLine := 0, anchorOffset := 0, focusLine := 1, focusOffset := 3 })
        none
      = [""] :=
  ⟨(delete_document_nonempty ["abc", "def"] none none none (by decide)).1,
   (delete_document_nonempty ["abc", "def"] none none none (by decide)).2.2⟩

/-- C4: `undo()` is a no-op on an empty undo stack; otherwise it pushes the
current line sequence onto the redo stack and restores the popped entry;
`redo()` is symmetric; consequently `redo()` right after `undo()` restores
the line sequence. -/
theorem undo_redo_inverse (st : HistState) :
    (st.undoStack = [] → st.undo = st) ∧
    (st.undoStack ≠ [] →
      st.undo = { lines := st.undoStack.getLastD [],
                  undoStack := st.undoStack.dropLast,
                  redoStack := st.redoStack ++ [st.lines] }) ∧
    (st.redoStack = [] → st.redo = st) ∧
    (st.redoStack ≠ [] →
      st.redo = { lines := st.redoStack.getLastD [],
                  undoStack := st.undoStack ++ [st.lines],
                  redoStack := st.redoStack.dropLast }) ∧
    (st.undoStack ≠ [] → st.undo.redo.lines = st.lines) := by
  refine ⟨?_, ?_, ?_, ?_, ?_⟩
  · intro h
    simp [HistState.undo, h]
  · intro h
    simp [HistState.undo, h]
  · intro h
    simp [HistState.redo, h]
  · intro h
    simp [HistState.redo, h]
  · intro h
    simp [HistState.undo, HistState.redo, h]

/-- Witness for C4 on a concrete history state. -/
theorem undo_redo_inverse_witness :
    (HistState.undo
        { lines := ["x"], undoStack := [["a"]], redoStack := [] }).redo.lines = ["x"] ∧
    (HistState.undo
        { lines := ["x"], undoStack := [["a"]], redoStack := [] }).lines = ["a"] := by
  have h := undo_redo_inverse { lines := ["x"], undoStack := [["a"]], redoStack := [] }
  refine ⟨h.2.2.2.2 (by decide), ?_⟩
  rw [h.2.1 (by decide)]
  decide

/-- C5 counterexample: when the debounced commit fires with a snapshot that is
textually identical to the top of the undo stack, the callback returns early
and the redo stack is NOT cleared — refuting "after every firing of the
commit, the RedoStack is empty" at this concrete state. -/
theorem pushUndoFire_redo_not_cleared :
    (pushUndoFire
        { lines := ["a"], undoStack := [["a"]], redoStack := [["b"]] }).redoStack
      ≠ [] := by
  decide

/-- C5 amended: when the debounced commit fires, the snapshot is pushed onto
the undo stack (with the oldest entry evicted past the 200 cap) and the redo
stack is cleared, UNLESS the snapshot is textually identical to the top of the
undo stack, in which case the commit returns early and leaves both stacks —
including the redo stack — unchanged. -/
theorem pushUndoFire_commit_spec (st : HistState) :
    (st.undoStack ≠ [] ∧ st.undoStack.getLastD [] = st.lines →
      pushUndoFire st = st) ∧
    (¬(st.undoStack ≠ [] ∧ st.undoStack.getLastD [] = st.lines) →
      (pushUndoFire st).redoStack = [] ∧
      (pushUndoFire st).undoStack =
        (if 200 < (st.undoStack ++ [st.lines]).length
          then (st.undoStack ++ [st.lines]).tail
          else st.undoStack ++ [st.lines])) := by
  unfold pushUndoFire
  constructor
  · intro h
    rw [if_pos h]
  · intro h
    rw [if_neg h]
    exact ⟨rfl, rfl⟩

/-- Witness for the amended C5. -/
theorem pushUndoFire_commit_spec_witness :
    pushUndoFire { lines := ["a"], undoStack := [["a"]], redoStack := [["b"]] }
      = { lines := ["a"], undoStack := [["a"]], redoStack := [["b"]] } ∧
    (pushUndoFire
        { lines := ["b"], undoStack := [["a"]], redoStack := [["c"]] }).redoStack
      = [] :=
  ⟨(pushUndoFire_commit_spec
      { lines := ["a"], undoStack := [["a"]], redoStack := [["b"]] }).1 (by decide),
   ((pushUndoFire_commit_spec
      { lines := ["b"], undoStack := [["a"]], redoStack := [["c"]] }).2 (by decide)).1⟩

/-- The invariant that bounds the history stacks: the undo stack holds at
most 200 entries and the two stacks together hold at most 200 entries. -/
def histBounded (st : HistState) : Prop :=
  st.undoStack.length ≤ 200 ∧
  st.undoStack.length + st.redoStack.length ≤ 200

/-- Every single history operation preserves `histBounded`. -/
theorem histBounded_applyHistOp (st : HistState) (op : HistOp)
    (h : histBounded st) : histBounded (applyHistOp st op) := by
  obtain ⟨h1, h2⟩ := h
  cases op with
  | edit newLines => exact ⟨h1, h2⟩
  | commit =>
    simp only [applyHistOp, pushUndoFire]
    split
    · exact ⟨h1, h2⟩
    · simp only [histBounded]
      split <;> rename_i hlen <;>
        simp only [List.length_tail, List.length_append, List.length_cons,
          List.length_nil] at hlen ⊢ <;>
        omega
  | undoOp =>
    simp only [applyHistOp, HistState.undo]
    split
    · exact ⟨h1, h2⟩
    · rename_i hne
      have hpos : 1 ≤ st.undoStack.length := List.length_pos.mpr hne
      refine ⟨?_, ?_⟩ <;>
        simp only [List.length_dropLast, List.length_append, List.length_cons,
          List.length_nil] <;>
        omega
  | redoOp =>
    simp only [applyHistOp, HistState.redo]
    split
    · exact ⟨h1, h2⟩
    · rename_i hne
      have hpos : 1 ≤ st.redoStack.length := List.length_pos.mpr hne
      refine ⟨?_, ?_⟩ <;>
        simp only [List.length_dropLast, List.length_append, List.length_cons,
          List.length_nil] <;>
        omega

/-- `histBounded` is preserved by any sequence of history operations. -/
theorem histBounded_runHistOps (ops : List HistOp) (st : HistState)
    (h : histBounded st) : histBounded (runHistOps st ops) := by
  induction ops generalizing st with
  | nil => exact h
  | cons op rest ih => exact ih _ (histBounded_applyHistOp st op h)

/-- C6: starting from empty stacks, after any sequence of edits, debounced
commits, undos and redos both history stacks hold at most 200 entries; and a
commit that pushes onto a full (200-entry) undo stack evicts the oldest
entry first. -/
theorem hist_stacks_capped (ops : List HistOp) (lines0 : List String) :
    ((runHistOps { lines := lines0, undoStack := [], redoStack := [] } ops).undoStack.length
        ≤ 200 ∧
      (runHistOps { lines := lines0, undoStack := [], redoStack := [] } ops).redoStack.length
        ≤ 200) ∧
    (∀ st : HistState, st.undoStack.length = 200 →
      st.undoStack.getLastD [] ≠ st.lines →
      (pushUndoFire st).undoStack = st.undoStack.tail ++ [st.lines]) := by
  constructor
  · obtain ⟨hb1, hb2⟩ :=
      histBounded_runHistOps ops { lines := lines0, undoStack := [], redoStack := [] }
        ⟨by simp, by simp⟩
    exact ⟨hb1, by omega⟩
  · intro st hlen hne
    simp only [pushUndoFire]
    rw [if_neg (fun hc => hne hc.2)]
    have hgt : 200 < (st.undoStack ++ [st.lines]).length := by
      simp [hlen]
    rw [if_pos hgt]
    match hu : st.undoStack with
    | [] => simp [hu] at hlen
    | a :: t => simp

set_option maxRecDepth 4000 in
/-- Witness for C6: a short concrete run, and eviction on a concrete full
stack. -/
theorem hist_stacks_capped_witness :
    (runHistOps { lines := ["x"], undoStack := [], redoStack := [] }
        [HistOp.commit, HistOp.undoOp, HistOp.redoOp]).undoStack.length ≤ 200 ∧
    (pushUndoFire
        { lines := ["b"], undoStack := List.replicate 200 ["a"], redoStack := [] }).undoStack
      = (List.replicate 200 ["a"]).tail ++ [["b"]] :=
  ⟨(hist_stacks_capped [HistOp.commit, HistOp.undoOp, HistOp.redoOp] ["x"]).1.1,
   (hist_stacks_capped [] ["x"]).2
     { lines := ["b"], undoStack := List.replicate 200 ["a"], redoStack := [] }
     (by simp) (by decide)⟩

/-- C7: range replace of a normalized cross-line selection with a payload that
is a literal newline character replaces the selected lines by exactly two
lines: `before` (the start line truncated to `startOffset`) and `after` (the
end line's suffix from `endOffset`). -/
theorem deleteKsel_newline_two_lines (lines : List String) (k : Ksel)
    (h : (kselNormalized k).startLine < (kselNormalized k).endLine) :
    deleteKsel lines (some k) (some "\n") =
      lines.take (kselNormalized k).startLine ++
        [(getLine lines (kselNormalized k).startLine).take (kselNormalized k).startOffset,
          (getLine lines (kselNormalized k).endLine).drop (kselNormalized k).endOffset] ++
        lines.drop ((kselNormalized k).endLine + 1) := by
  simp only [deleteKsel, jsSplice]
  have hidx : (kselNormalized k).startLine +
      ((kselNormalized k).endLine - (kselNormalized k).startLine + 1) =
      (kselNormalized k).endLine + 1 := by omega
  rw [hidx, if_neg (by simp)]
  simp

/-- Witness for C7 on a concrete three-line document. -/
theorem deleteKsel_newline_two_lines_witness :
    deleteKsel ["abc", "def", "ghi"]
        (some { anchorLine := 0, anchorOffset := 1, focusLine := 2, focusOffset := 2 })
        (some "\n")
      = ["a", "i"] :=
  (deleteKsel_newline_two_lines ["abc", "def", "ghi"]
      { anchorLine := 0, anchorOffset := 1, focusLine := 2, focusOffset := 2 }
      (by decide)).trans (by decide)

/-- C8: pointer offset recovery returns `0` for empty rendered text, and the
proportional projection is exact whenever the rendered and raw text have
equal length: `rawOffset = renderedCharPos` for every valid position. -/
theorem offsetInLineProj_exact_on_equal_length (charPos fullLen rawLen : Nat) :
    offsetInLineProj charPos 0 rawLen = 0 ∧
    (charPos ≤ fullLen → offsetInLineProj charPos fullLen fullLen = charPos) := by
  constructor
  · simp [offsetInLineProj]
  · intro hvalid
    rcases Nat.eq_zero_or_pos fullLen with hz | hpos
    · subst hz
      interval_cases charPos
      simp [offsetInLineProj]
    · have hne : fullLen ≠ 0 := Nat.pos_iff_ne_zero.mp hpos
      have hq : ((fullLen : ℚ)) ≠ 0 := by exact_mod_cast hne
      simp only [offsetInLineProj, if_neg hne, jsRound]
      rw [div_mul_cancel₀ _ hq]
      have hcast : ((charPos : ℚ)) = (((charPos : ℤ) : ℚ)) := by push_cast; ring
      rw [hcast, Int.floor_int_add]
      norm_num

/-- Witness for C8 at concrete offsets. -/
theorem offsetInLineProj_exact_witness :
    offsetInLineProj 3 0 7 = 0 ∧ offsetInLineProj 3 5 5 = 3 :=
  ⟨(offsetInLineProj_exact_on_equal_length 3 0 7).1,
   (offsetInLineProj_exact_on_equal_length 3 5 0).2 (by decide)⟩

/-- C9: a selection whose start and end lie on the same line is rejected by
both cross-line extractions (keyboard and pointer both return `none`), and
the cross-line delete returns `false` leaving the line sequence unchanged. -/
theorem same_line_selection_rejected (k : Ksel) (lines : List String)
    (sl so eo : Nat) (s : CrossSel)
    (hk : (kselNormalized k).startLine = (kselNormalized k).endLine)
    (hs : s.startLine = s.endLine) :
    getKselAsCross (some k) = none ∧
    getCrossLineSelection (some sl) (some sl) so eo = none ∧
    deleteSelection lines (some s) = (false, lines) := by
  refine ⟨?_, ?_, ?_⟩
  · simp [getKselAsCross, hk]
  · simp [getCrossLineSelection]
  · simp [deleteSelection, hs]

/-- Witness for C9 on a concrete same-line selection. -/
theorem same_line_selection_rejected_witness :
    getKselAsCross
        (some { anchorLine := 0, anchorOffset := 1, focusLine := 0, focusOffset := 3 })
      = none ∧
    getCrossLineSelection (some 2) (some 2) 1 4 = none ∧
    deleteSelection ["abc", "def"]
        (some { startLine := 1, startOffset := 0, endLine := 1, endOffset := 2 })
      = (false, ["abc", "def"]) :=
  same_line_selection_rejected
    { anchorLine := 0, anchorOffset := 1, focusLine := 0, focusOffset := 3 }
    ["abc", "def"] 2 1 4
    { startLine := 1, startOffset := 0, endLine := 1, endOffset := 2 }
    (by decide) (by decide)

/-- C10: every Shift+ArrowUp / Shift+ArrowDown extension of the keyboard
selection keeps both `anchorLine` and `focusLine` inside
`[0, lines.length - 1]`: starting from the current line index and a selection
whose lines index existing lines (or no selection), the resulting selection
again indexes only existing lines. -/
theorem ksel_arrow_extension_in_bounds (lines : List String)
    (idx cursorOff : Nat) (ks : Option Ksel)
    (hidx : idx < lines.length)
    (hks : ∀ k, ks = some k → kselInBounds lines k) :
    (∀ k, kselArrowUpShift lines idx cursorOff ks = some k →
      kselInBounds lines k) ∧
    (∀ k, kselArrowDownShift lines idx cursorOff ks = some k →
      kselInBounds lines k) := by
  constructor
  · intro k hk
    simp only [kselArrowUpShift] at hk
    split at hk
    · match ks with
      | none =>
        simp only [Option.getD_none, Option.some.injEq] at hk
        subst hk
        refine ⟨hidx, ?_⟩
        simp only [Nat.zero_max]
        omega
      | some k0 =>
        simp only [Option.getD_some, Option.some.injEq] at hk
        subst hk
        obtain ⟨ha, hf⟩ := hks k0 rfl
        refine ⟨ha, ?_⟩
        simp only [Nat.zero_max]
        omega
    · exact hks k hk
  · intro k hk
    simp only [kselArrowDownShift] at hk
    split at hk
    · rename_i hlt
      match ks with
      | none =>
        simp only [Option.getD_none, Option.some.injEq] at hk
        subst hk
        exact ⟨hidx, Nat.lt_of_le_of_lt (Nat.min_le_left _ _) (by omega)⟩
      | some k0 =>
        simp only [Option.getD_some, Option.some.injEq] at hk
        subst hk
        obtain ⟨ha, hf⟩ := hks k0 rfl
        exact ⟨ha, Nat.lt_of_le_of_lt (Nat.min_le_left _ _) (by omega)⟩
    · match ks with
      | none =>
        simp only [Option.getD_none, Option.some.injEq] at hk
        subst hk
        exact ⟨hidx, hidx⟩
      | some k0 =>
        simp only [Option.getD_some, Option.some.injEq] at hk
        subst hk
        obtain ⟨ha, hf⟩ := hks k0 rfl
        exact ⟨ha, hf⟩

/-- Witness for C10 on a concrete two-line document. -/
theorem ksel_arrow_extension_in_bounds_witness :
    kselInBounds ["ab", "cd"]
      { anchorLine := 1, anchorOffset := 0, focusLine := 0, focusOffset := 2 } :=
  (ksel_arrow_extension_in_bounds ["ab", "cd"] 1 0 none (by decide)
      (fun k hcontra => by cases hcontra)).1
    { anchorLine := 1, anchorOffset := 0, focusLine := 0, focusOffset := 2 }
    (by decide)
